import Mathlib

/-!
Verification of the ROI translation and composition layer of
`lazyflow/operators/generic.py`.

Arrays are modelled as total functions from integer coordinate lists to
values; an ROI is a pair of coordinate lists (half-open box).  A slot
fetch `inSlot[key].writeInto(buffer)` is modelled pointwise: the buffer
cell at local coordinate `u` receives the upstream value at coordinate
`key.start + u`.  Machine integers are Lean `Int`s (Python ints are
unbounded, so no wrap-around modelling is needed).
-/

set_option maxHeartbeats 1000000

/-- Element lookup in a coordinate list, defaulting to 0 out of range
(models indexing a TinyVector / numpy shape tuple at a valid axis). -/
def idx (xs : List Int) (i : Nat) : Int :=
  xs.getD i 0

/-- Pointwise sum of two coordinate lists (models `start + offset` style
coordinate translation). -/
def zipAdd (a b : List Int) : List Int :=
  List.zipWith (· + ·) a b

/-- Python `list.pop(i)`: the list with the element at position `i` removed. -/
def popAt : List Int → Nat → List Int
  | [], _ => []
  | _ :: t, 0 => t
  | x :: t, i + 1 => x :: popAt t i

/-- Python `list.insert(i, v)`: insert `v` before position `i`
(appending when `i` is past the end). -/
def insertAt : List Int → Nat → Int → List Int
  | xs, 0, v => v :: xs
  | [], _ + 1, v => [v]
  | x :: t, i + 1, v => x :: insertAt t i v

/-- Python `range(a, b)` over integers. -/
def intRange (a b : Int) : List Int :=
  (List.range (b - a).toNat).map (fun j => a + j)

/- ### OpSubRegion (`generic.py` lines 400-413) -/

/-- `OpSubRegion.setupOutputs`: with `Roi = (rstart, rstop)` and input shape
`inputShape`, the output is not ready (`none`) when the Roi dimensionality
differs from the input's, or when `start >= stop` on any axis; otherwise the
output shape is `stop - start`. -/
def OpSubRegion_setupOutputs (inputShape rstart rstop : List Int) : Option (List Int) :=
  if ¬(rstart.length = rstop.length ∧ rstop.length = inputShape.length) then
    none
  else if (List.zipWith (fun a b => decide (a ≥ b)) rstart rstop).any (fun x => x) then
    none
  else
    some (List.zipWith (fun a b => b - a) rstart rstop)

/- ### OpMultiChannelSelector.setupOutputs (`generic.py` lines 808-837) -/

/-- `OpMultiChannelSelector.setupOutputs` (shape/readiness part): with the
channel axis last, the output is not ready when the `SelectedChannels` tuple
is empty or some selected index is `≥` the input channel count; otherwise the
output shape is the input shape with the channel extent replaced by the number
of selected channels. -/
def OpMultiChannelSelector_setupOutputs (inputShape sel : List Int) : Option (List Int) :=
  let maxChannel := idx inputShape (inputShape.length - 1)
  if sel.length = 0 ∨ sel.any (fun x => decide (x ≥ maxChannel)) then
    none
  else
    some (inputShape.dropLast ++ [(sel.length : Int)])

/- ### OpMaxChannelIndicatorOperator (`generic.py` lines 494-531) -/

/-- Integer points of the half-open box `[sstart, sstop)`, in row-major
order (used to model `numpy.any(data)` over a fetched block). -/
def boxPoints : List Int → List Int → List (List Int)
  | a :: as_, b :: bs => (intRange a b).flatMap (fun v => (boxPoints as_ bs).map (fun t => v :: t))
  | _, _ => [[]]

/-- `not numpy.any(data)` for the block fetched by
`OpMaxChannelIndicatorOperator.execute`: the input is zero at every spatial
point of the requested ROI and every channel `0 .. nch-1`. -/
def OpMaxChannelIndicator_allZero (nch : Nat) (input : List Int → Int)
    (sstart sstop : List Int) : Bool :=
  (boxPoints sstart sstop).all
    (fun u => (List.range nch).all (fun ch : Nat => input (u ++ [(ch : Int)]) == 0))

/-- `numpy.argmax`: index of the first occurrence of the maximum value. -/
def argmaxIdx : List Int → Nat
  | [] => 0
  | [_] => 0
  | x :: y :: t =>
    let j := argmaxIdx (y :: t)
    if idx (y :: t) j > x then j + 1 else 0

/-- The argmax indicator image: 1 where the first channel attaining the
per-pixel maximum equals `c0`, else 0
(`numpy.uint8(numpy.argmax(data, axis=-1) == c.start)`). -/
def maxChanIndicator (nch : Nat) (input : List Int → Int) (c0 : Int) : List Int → Int :=
  fun u =>
    if (argmaxIdx ((List.range nch).map (fun ch : Nat => input (u ++ [(ch : Int)]))) : Int) = c0
    then 1
    else 0

/-- `OpMaxChannelIndicatorOperator.execute` on the ROI with spatial box
`[sstart, sstop)` and channel slice `[c0, c1)`:  a ROI requesting a channel
extent other than 1 raises `InvalidRoiException` before the upstream fetch;
an all-zero fetched block yields the all-zero result; otherwise the argmax
indicator for channel `c0`. -/
def OpMaxChannelIndicator_execute (nch : Nat) (input : List Int → Int)
    (sstart sstop : List Int) (c0 c1 : Int) : Except String (List Int → Int) :=
  if c1 - c0 ≠ 1 then
    Except.error "This operator only accepts slices of size 1 for c!"
  else if OpMaxChannelIndicator_allZero nch input sstart sstop then
    Except.ok (fun _ => 0)
  else
    Except.ok (maxChanIndicator nch input c0)

/- ### OpMultiArrayMerger.setupOutputs drange logic (`generic.py` lines 444-468) -/

/-- The drange-collection loop of `OpMultiArrayMerger.setupOutputs`: walk the
inputs' dranges in order, appending each; on the first missing drange the
collection is reset to `[]` and the loop breaks. -/
def mergerCollectDranges {α : Type} : List (Option α) → List α → List α
  | [], acc => acc
  | none :: _, _ => []
  | some v :: rest, acc => mergerCollectDranges rest (acc ++ [v])

/-- `OpMultiArrayMerger.setupOutputs` (drange part): the output drange is set
to the merging function applied to the collected dranges when the collection
is non-empty, and left unset otherwise. -/
def OpMultiArrayMerger_outputDrange {α : Type} (mergeFun : List α → α)
    (dranges : List (Option α)) : Option α :=
  let ds := mergerCollectDranges dranges []
  if 0 < ds.length then some (mergeFun ds) else none

/- ### OpMultiArrayStacker (`generic.py` lines 187-298) -/

/-- One connected source of the stacker: whether the stacking axis key is
among its axis tags, its extent along the stacking axis position (its
`meta.shape[axisindex]`, meaningful when it has the axis), and its fetch
behaviour — `fetch rs u` is the value written by
`inSlot[roi(rs, _)].writeInto(buffer)` into buffer cell `u`. -/
structure StackSource (α : Type) where
  hasAxis : Bool
  extent : Int
  fetch : List Int → List Int → α

/-- Per-source contribution along the stacking axis: the extent if the
source has the axis, else 1 (`setRightShape`, lines 208-213). -/
def contribution {α : Type} (s : StackSource α) : Int :=
  if s.hasAxis then s.extent else 1

/-- The interval table built by `setRightShape`: for each source in
connection order, the half-open interval `(old_c, c)` where `c` is the
running cumulative sum of contributions. -/
def intervalsFrom {α : Type} : Int → List (StackSource α) → List (Int × Int)
  | _, [] => []
  | c, s :: rest => (c, c + contribution s) :: intervalsFrom (c + contribution s) rest

/-- `OpMultiArrayStacker.setRightShape`'s `self.intervals`: cumulative
per-source intervals starting at 0. -/
def setRightShape {α : Type} (sources : List (StackSource α)) : List (Int × Int) :=
  intervalsFrom 0 sources

/-- Total output extent along the stacking axis. -/
def totalContribution {α : Type} (sources : List (StackSource α)) : Int :=
  sources.foldl (fun acc s => acc + contribution s) 0

/-- One iteration of the source loop of `OpMultiArrayStacker.execute`
(lines 259-295), carrying the Python state `(cnt, written, result)`.
`L` is the index of the stacking axis in the output axis tags, `start`/`stop`
the requested ROI.  When the source has the axis, the guarded branch fetches
the overlap `[begin, end)` of the source into the result slab
`[written, written + end - begin)` along the axis; otherwise the source (for
which the axis is synthesized) is fetched with the axis dropped into the
axis-position `written` cross-section of the result. -/
def stackOne {α : Type} (L : Nat) (start stop : List Int) (s : StackSource α) :
    Int × Int × (List Int → α) → Int × Int × (List Int → α)
  | (cnt, written, res) =>
    if s.hasAxis then
      let slices := s.extent
      if cnt + slices ≥ idx start L ∧ idx start L - cnt < slices
          ∧ idx start L + written < idx stop L then
        let b := if cnt < idx start L then idx start L - cnt else 0
        let e := if cnt + slices > idx stop L then slices - (cnt + slices - idx stop L)
          else slices
        (cnt + slices, written + (e - b), fun y =>
          if written ≤ idx y L ∧ idx y L < written + (e - b) then
            s.fetch (insertAt (popAt start L) L b) (insertAt (popAt y L) L (idx y L - written))
          else res y)
      else (cnt + slices, written, res)
    else
      if cnt ≥ idx start L ∧ idx start L + written < idx stop L then
        (cnt + 1, written + 1, fun y =>
          if idx y L = written then s.fetch (popAt start L) (popAt y L) else res y)
      else (cnt + 1, written, res)

/-- `OpMultiArrayStacker.execute` for the ROI `[start, stop)`, as the final
result buffer (a function on buffer-local coordinates; `init` is the
pre-allocated buffer's prior contents). -/
def stackerExecute {α : Type} (L : Nat) (sources : List (StackSource α))
    (start stop : List Int) (init : List Int → α) : List Int → α :=
  (sources.foldl (fun st s => stackOne L start stop s st) (0, 0, init)).2.2

/-- The value `execute` writes for the source with interval offset `o`:
the exact fetch call issued by the guarded branch. -/
def stackFetchVal {α : Type} (L : Nat) (start stop : List Int) (o : Int)
    (s : StackSource α) (y : List Int) : α :=
  if s.hasAxis then
    s.fetch (insertAt (popAt start L) L (max (idx start L - o) 0))
      (insertAt (popAt y L) L
        (idx y L - max 0 (min o (idx stop L) - idx start L)))
  else
    s.fetch (popAt start L) (popAt y L)

/-- A stacker source behaving as a plain array `dat`: a fetch of the ROI
starting at `rs` fills buffer cell `u` with `dat (rs + u)` (the slot
contract for an upstream whose output is the array `dat`). -/
def ArrayLike {α : Type} (s : StackSource α) (dat : List Int → α) : Prop :=
  ∀ rs u, s.fetch rs u = dat (zipAdd rs u)

/- ### OpMultiArraySlicer2 (`generic.py` lines 61-168) and the C2 round-trip -/

/-- The upstream key built by `OpMultiArraySlicer2.execute` (lines 131-143):
the requested start with the sliced-axis component popped and the recorded
slice index inserted in its place. -/
def slicerNewKeyStart (L : Nat) (sliceIndex : Int) (rstart : List Int) : List Int :=
  insertAt (popAt rstart L) L sliceIndex

/-- `OpMultiArraySlicer2.execute` for the sub-output recording `sliceIndex`:
buffer cell `u` of the request starting at `rstart` receives the input's
value at `slicerNewKeyStart L sliceIndex rstart + u`. -/
def OpMultiArraySlicer2_execute {α : Type} (L : Nat) (sliceIndex : Int)
    (input : List Int → α) (rstart : List Int) : List Int → α :=
  fun u => input (zipAdd (slicerNewKeyStart L sliceIndex rstart) u)

/-- The stack sources obtained by slicing `input` along axis `L` into the
default indices `0 .. n-1`: each sub-output keeps the axis with extent 1 and
serves fetches through `OpMultiArraySlicer2.execute`. -/
def slicerStackSources {α : Type} (L : Nat) (n : Nat) (input : List Int → α) :
    List (StackSource α) :=
  (List.range n).map
    (fun j : Nat => StackSource.mk true 1 (OpMultiArraySlicer2_execute L (j : Int) input))

/- ### OpMultiChannelSelector.execute (`generic.py` lines 839-866) -/

/-- The multi-channel loop of `OpMultiChannelSelector.execute` (lines
853-866): for each output channel `i` (enumeration counter starting at `i0`)
and selected source channel `ch`, one request reads the single source channel
`[ch, ch+1)` and writes it into the 1-wide slab `[i, i+1)` of the result
along the last axis `L`. -/
def OpMultiChannelSelector_writeLoop {α : Type} (L : Nat) (input : List Int → α)
    (rstart : List Int) : Nat → List Int → (List Int → α) → (List Int → α)
  | _, [], res => res
  | i0, ch :: rest, res =>
    OpMultiChannelSelector_writeLoop L input rstart (i0 + 1) rest
      (fun u =>
        if idx u L = (i0 : Int) then
          input (zipAdd (rstart.set L ch) (u.set L (idx u L - (i0 : Int))))
        else res u)

/-- `OpMultiChannelSelector.execute` on the ROI starting at `rstart` with
channel axis `L` (the last axis): a single selected channel is fetched in
place; otherwise one request per output channel writes the selected source
channel into its slab. -/
def OpMultiChannelSelector_execute {α : Type} (L : Nat) (sel : List Int)
    (input : List Int → α) (rstart : List Int) (init : List Int → α) : List Int → α :=
  if sel.length = 1 then
    fun u => input (zipAdd (rstart.set L (idx sel 0)) u)
  else
    OpMultiChannelSelector_writeLoop L input rstart 0 sel init

/- ### OpMultiArrayStacker.propagateDirty (`generic.py` lines 300-312) -/

/-- Modelled from the spec: `Operator.propagateDirtyIfNewModTime` lives in
`lazyflow.graph`, outside this file.  Per the spec (§4.3, "any upstream
change, axis-flag change, or source-list change marks the entire output
dirty") and the comment at lines 306-308, it marks the whole output region
`[0, shape)` dirty. -/
def propagateDirtyIfNewModTime (outputShape : List Int) : List Int × List Int :=
  (outputShape.map (fun _ => 0), outputShape)

/-- The input slot that fired the dirty notification on the stacker. -/
inductive StackerDirtySlot
  | axisFlagSlot
  | axisIndexSlot
  | imagesSlot

/-- `OpMultiArrayStacker.propagateDirty`: returns the dirty region reported
downstream (`none` when the output is not ready and the notification is
swallowed).  The incoming roi `[dstart, dstop)` is ignored by the code: every
slot kind triggers `propagateDirtyIfNewModTime`. -/
def OpMultiArrayStacker_propagateDirty (ready : Bool) (outputShape : List Int)
    (slot : StackerDirtySlot) (dstart dstop : List Int) :
    Option (List Int × List Int) :=
  if ready = false then
    none
  else
    match slot with
    | StackerDirtySlot.axisFlagSlot => some (propagateDirtyIfNewModTime outputShape)
    | StackerDirtySlot.axisIndexSlot => some (propagateDirtyIfNewModTime outputShape)
    | StackerDirtySlot.imagesSlot => some (propagateDirtyIfNewModTime outputShape)

/-- The region claim C3 says should be reported: the dirty sub-box of the
source, shifted along the stacking axis by the source's recorded offset. -/
def claimedStackerDirty (L : Nat) (o : Int) (dstart dstop : List Int) :
    List Int × List Int :=
  (dstart.set L (idx dstart L + o), dstop.set L (idx dstop L + o))

/- ### OpMultiArraySlicer2.propagateDirty (`generic.py` lines 148-168) -/

/-- `OpMultiArraySlicer2.propagateDirty` for a dirty region on `Input`:
for each axis position `i` in `range(roi.start[L], roi.stop[L])` that is a
member of the slice-index list and satisfies `i < len(self.Slices)`
(`len(self.Slices) = len(sliceIndexes)` after configure), the slot
`self.Slices[i]` is marked dirty with the sliced axis collapsed to `[0, 1)`.
Returns the list of `(marked Slices position, dirty start, dirty stop)`. -/
def OpMultiArraySlicer2_propagateDirtyInput (L : Nat) (sliceIndexes : List Int)
    (dstart dstop : List Int) : List (Int × List Int × List Int) :=
  (intRange (idx dstart L) (idx dstop L)).filterMap (fun i =>
    if i ∈ sliceIndexes ∧ i < (sliceIndexes.length : Int) then
      some (i, dstart.set L 0, dstop.set L 1)
    else none)

/- ## Theorems -/
/- ### Basic lemmas about the coordinate helpers -/

theorem idx_nil (i : Nat) : idx [] i = 0 := by
  cases i <;> rfl

theorem idx_cons_zero (x : Int) (t : List Int) : idx (x :: t) 0 = x := rfl

theorem idx_cons_succ (x : Int) (t : List Int) (i : Nat) :
    idx (x :: t) (i + 1) = idx t i := rfl

theorem idx_zipAdd (a b : List Int) (i : Nat) (ha : i < a.length) (hb : i < b.length) :
    idx (zipAdd a b) i = idx a i + idx b i := by
  induction a generalizing b i with
  | nil => simp at ha
  | cons x t ih =>
    cases b with
    | nil => simp at hb
    | cons y s =>
      cases i with
      | zero => rfl
      | succ j =>
        simp only [zipAdd, List.zipWith_cons_cons, idx_cons_succ]
        exact ih s j (by simpa using ha) (by simpa using hb)

theorem length_zipAdd (a b : List Int) : (zipAdd a b).length = min a.length b.length := by
  simp [zipAdd]

theorem length_popAt (xs : List Int) (i : Nat) (h : i < xs.length) :
    (popAt xs i).length = xs.length - 1 := by
  induction xs generalizing i with
  | nil => simp at h
  | cons x t ih =>
    cases i with
    | zero => simp [popAt]
    | succ j =>
      have ht : j < t.length := by simpa using h
      have := ih j ht
      simp only [popAt, List.length_cons, this]
      omega

theorem length_insertAt (xs : List Int) (i : Nat) (v : Int) (h : i ≤ xs.length) :
    (insertAt xs i v).length = xs.length + 1 := by
  induction xs generalizing i with
  | nil =>
    cases i with
    | zero => rfl
    | succ j => simp at h
  | cons x t ih =>
    cases i with
    | zero => rfl
    | succ j => simp [insertAt, ih j (by simpa using h)]

/-- Popping and re-inserting at the same position with the original value
is the identity. -/
theorem insertAt_popAt_idx (xs : List Int) (i : Nat) (h : i < xs.length) :
    insertAt (popAt xs i) i (idx xs i) = xs := by
  induction xs generalizing i with
  | nil => simp at h
  | cons x t ih =>
    cases i with
    | zero => simp [popAt, idx, insertAt]
    | succ j =>
      simp only [popAt, idx_cons_succ, insertAt, List.cons.injEq, true_and]
      exact ih j (by simpa using h)

/-- Inserting and then popping at the same position is the identity. -/
theorem popAt_insertAt (xs : List Int) (i : Nat) (v : Int) (h : i ≤ xs.length) :
    popAt (insertAt xs i v) i = xs := by
  induction xs generalizing i with
  | nil =>
    cases i with
    | zero => rfl
    | succ j => simp at h
  | cons x t ih =>
    cases i with
    | zero => rfl
    | succ j =>
      simp only [insertAt, popAt, List.cons.injEq, true_and]
      exact ih j (by simpa using h)

theorem zipAdd_popAt (a b : List Int) (i : Nat) (hlen : a.length = b.length) :
    zipAdd (popAt a i) (popAt b i) = popAt (zipAdd a b) i := by
  induction a generalizing b i with
  | nil =>
    cases b with
    | nil => rfl
    | cons y s => simp at hlen
  | cons x t ih =>
    cases b with
    | nil => simp at hlen
    | cons y s =>
      cases i with
      | zero => rfl
      | succ j =>
        simp only [popAt, zipAdd, List.zipWith_cons_cons, List.cons.injEq, true_and]
        exact ih s j (by simpa using hlen)

theorem zipAdd_insertAt (a b : List Int) (i : Nat) (v w : Int)
    (ha : i ≤ a.length) (hb : i ≤ b.length) :
    zipAdd (insertAt a i v) (insertAt b i w) = insertAt (zipAdd a b) i (v + w) := by
  induction a generalizing b i with
  | nil =>
    cases i with
    | zero =>
      cases b with
      | nil => rfl
      | cons y s => rfl
    | succ j => simp at ha
  | cons x t ih =>
    cases b with
    | nil =>
      have hi : i = 0 := by simpa using hb
      subst hi
      rfl
    | cons y s =>
      cases i with
      | zero => rfl
      | succ j =>
        simp only [insertAt, zipAdd, List.zipWith_cons_cons, List.cons.injEq, true_and]
        exact ih s j (by simpa using ha) (by simpa using hb)

theorem zipAdd_set (a b : List Int) (i : Nat) (v w : Int)
    (ha : i < a.length) (hb : i < b.length) :
    zipAdd (a.set i v) (b.set i w) = (zipAdd a b).set i (v + w) := by
  induction a generalizing b i with
  | nil => simp at ha
  | cons x t ih =>
    cases b with
    | nil => simp at hb
    | cons y s =>
      cases i with
      | zero => rfl
      | succ j =>
        simp only [List.set, zipAdd, List.zipWith_cons_cons, List.cons.injEq, true_and]
        exact ih s j (by simpa using ha) (by simpa using hb)

theorem idx_set_self (xs : List Int) (i : Nat) (v : Int) (h : i < xs.length) :
    idx (xs.set i v) i = v := by
  induction xs generalizing i with
  | nil => simp at h
  | cons x t ih =>
    cases i with
    | zero => rfl
    | succ j => exact ih j (by simpa using h)

/-- `zipAdd a (b.set i w)` where only position `i` matters on the right:
general decomposition used for single-channel fetches. -/
theorem zipAdd_set_right (a b : List Int) (i : Nat) (w : Int)
    (ha : i < a.length) (hb : i < b.length) :
    zipAdd a (b.set i w) = (zipAdd a b).set i (idx a i + w) := by
  induction a generalizing b i with
  | nil => simp at ha
  | cons x t ih =>
    cases b with
    | nil => simp at hb
    | cons y s =>
      cases i with
      | zero => rfl
      | succ j =>
        simp only [List.set, zipAdd, List.zipWith_cons_cons, List.cons.injEq, true_and]
        exact ih s j (by simpa using ha) (by simpa using hb)

theorem subregion_anyGe_iff (a b : List Int) :
    ((List.zipWith (fun x y => decide (x ≥ y)) a b).any (fun x => x) = true)
      ↔ ∃ i, i < a.length ∧ i < b.length ∧ idx b i ≤ idx a i := by
  induction a generalizing b with
  | nil =>
    simp
  | cons x t ih =>
    cases b with
    | nil => simp
    | cons y s =>
      simp only [List.zipWith_cons_cons, List.any_cons, Bool.or_eq_true, decide_eq_true_eq,
        ih s]
      constructor
      · rintro (h | ⟨i, h1, h2, h3⟩)
        · exact ⟨0, by simp, by simp, by simpa [idx] using h⟩
        · exact ⟨i + 1, by simpa using h1, by simpa using h2, by simpa [idx_cons_succ] using h3⟩
      · rintro ⟨i, h1, h2, h3⟩
        cases i with
        | zero => exact Or.inl (by simpa [idx] using h3)
        | succ j =>
          exact Or.inr ⟨j, by simpa using h1, by simpa using h2, by simpa [idx_cons_succ] using h3⟩

/-- Claim C5: `OpSubRegion.setupOutputs` marks the output not-ready when
`start ≥ stop` on any axis (in particular `start = stop`, so a zero-sized
successful output is impossible) or when the Roi dimensionality differs from
the input shape's dimensionality; otherwise the output shape is
`stop - start` componentwise. -/
theorem OpSubRegion_setupOutputs_spec (inputShape rstart rstop : List Int) :
    ((∃ i, i < rstart.length ∧ i < rstop.length ∧ idx rstop i ≤ idx rstart i) →
        OpSubRegion_setupOutputs inputShape rstart rstop = none)
    ∧ ((rstart.length ≠ inputShape.length ∨ rstop.length ≠ inputShape.length) →
        OpSubRegion_setupOutputs inputShape rstart rstop = none)
    ∧ (rstart.length = rstop.length → rstop.length = inputShape.length →
        (∀ i, i < rstart.length → idx rstart i < idx rstop i) →
        OpSubRegion_setupOutputs inputShape rstart rstop
          = some (List.zipWith (fun a b => b - a) rstart rstop)) := by
  refine ⟨?_, ?_, ?_⟩
  · rintro ⟨i, h1, h2, h3⟩
    unfold OpSubRegion_setupOutputs
    by_cases hlen : rstart.length = rstop.length ∧ rstop.length = inputShape.length
    · have hany : (List.zipWith (fun x y => decide (x ≥ y)) rstart rstop).any (fun x => x)
          = true := (subregion_anyGe_iff rstart rstop).2 ⟨i, h1, h2, h3⟩
      simp [hlen, hany]
    · simp [hlen]
  · intro h
    unfold OpSubRegion_setupOutputs
    have : ¬(rstart.length = rstop.length ∧ rstop.length = inputShape.length) := by
      rintro ⟨h1, h2⟩
      rcases h with h | h
      · exact h (h1.trans h2)
      · exact h h2
    simp [this]
  · intro h1 h2 hlt
    unfold OpSubRegion_setupOutputs
    have hany : ¬((List.zipWith (fun x y => decide (x ≥ y)) rstart rstop).any (fun x => x)
        = true) := by
      rw [subregion_anyGe_iff]
      rintro ⟨i, hi1, _, hi3⟩
      exact absurd hi3 (by simpa using hlt i hi1)
    simp [h1, h2, hany]

/-- Witness for C5: concrete evaluations through the theorem: a degenerate
axis (`start = stop`) yields not-ready, and a proper box yields `stop - start`. -/
theorem OpSubRegion_setupOutputs_spec_witness :
    OpSubRegion_setupOutputs [5, 5] [1, 2] [1, 4] = none
    ∧ OpSubRegion_setupOutputs [5, 5] [1, 2] [3, 4] = some [2, 2] := by
  constructor
  · exact (OpSubRegion_setupOutputs_spec [5, 5] [1, 2] [1, 4]).1
      ⟨0, by decide, by decide, by decide⟩
  · have h := (OpSubRegion_setupOutputs_spec [5, 5] [1, 2] [3, 4]).2.2 (by decide) (by decide)
      (by decide)
    simpa using h

/-- Claim C10: `OpMultiChannelSelector.setupOutputs` marks the output
not-ready not only when some selected channel index is `≥` the input channel
count, but also when `SelectedChannels` is empty; a non-empty in-range
selection yields the reshaped output. -/
theorem OpMultiChannelSelector_setupOutputs_notready (inputShape sel : List Int) :
    (sel = [] → OpMultiChannelSelector_setupOutputs inputShape sel = none)
    ∧ ((∃ x ∈ sel, idx inputShape (inputShape.length - 1) ≤ x) →
        OpMultiChannelSelector_setupOutputs inputShape sel = none)
    ∧ (sel ≠ [] → (∀ x ∈ sel, x < idx inputShape (inputShape.length - 1)) →
        OpMultiChannelSelector_setupOutputs inputShape sel
          = some (inputShape.dropLast ++ [(sel.length : Int)])) := by
  refine ⟨?_, ?_, ?_⟩
  · intro h
    subst h
    rfl
  · rintro ⟨x, hx, hge⟩
    unfold OpMultiChannelSelector_setupOutputs
    have hany : sel.any (fun v => decide (v ≥ idx inputShape (inputShape.length - 1)))
        = true := List.any_eq_true.2 ⟨x, hx, by simpa using hge⟩
    simp [hany]
  · intro hne hlt
    unfold OpMultiChannelSelector_setupOutputs
    have hlen : ¬(sel.length = 0) := by simpa [List.length_eq_zero] using hne
    have hany : ¬(sel.any (fun v => decide (v ≥ idx inputShape (inputShape.length - 1)))
        = true) := by
      rw [List.any_eq_true]
      rintro ⟨x, hx, hge⟩
      exact absurd (by simpa using hge) (not_le.2 (hlt x hx))
    simp [hlen, hany]

/-- Witness for C10: an empty selection is not-ready even though no index is
out of range, and a valid selection reshapes the channel extent. -/
theorem OpMultiChannelSelector_setupOutputs_notready_witness :
    OpMultiChannelSelector_setupOutputs [7, 4] [] = none
    ∧ OpMultiChannelSelector_setupOutputs [7, 4] [2, 0, 0] = some [7, 3] := by
  constructor
  · exact (OpMultiChannelSelector_setupOutputs_notready [7, 4] []).1 rfl
  · have h := (OpMultiChannelSelector_setupOutputs_notready [7, 4] [2, 0, 0]).2.2
      (by decide) (by decide)
    simpa using h

/-- Claim C6: `OpMaxChannelIndicatorOperator.execute` hard-fails on every
ROI whose channel extent differs from 1 — uniformly in the input data, i.e.
before any upstream fetch — and never raises that failure when the channel
extent is exactly 1. -/
theorem OpMaxChannelIndicator_execute_channel_guard (nch : Nat) (input : List Int → Int)
    (sstart sstop : List Int) (c0 c1 : Int) :
    (c1 - c0 ≠ 1 →
      OpMaxChannelIndicator_execute nch input sstart sstop c0 c1
        = Except.error "This operator only accepts slices of size 1 for c!")
    ∧ (c1 - c0 = 1 →
      (OpMaxChannelIndicator_execute nch input sstart sstop c0 c1).isOk = true) := by
  constructor
  · intro h
    simp [OpMaxChannelIndicator_execute, h]
  · intro h
    unfold OpMaxChannelIndicator_execute
    rw [if_neg (by simp [h])]
    by_cases hz : OpMaxChannelIndicator_allZero nch input sstart sstop
    · simp [hz, Except.isOk, Except.toBool]
    · simp [hz, Except.isOk, Except.toBool]

/-- Witness for C6: a 2-channel request errors for every input; a 1-channel
request succeeds. -/
theorem OpMaxChannelIndicator_execute_channel_guard_witness :
    OpMaxChannelIndicator_execute 2 (fun _ => 5) [0] [1] 0 2
      = Except.error "This operator only accepts slices of size 1 for c!"
    ∧ (OpMaxChannelIndicator_execute 2 (fun _ => 5) [0] [1] 0 1).isOk = true := by
  constructor
  · exact (OpMaxChannelIndicator_execute_channel_guard 2 (fun _ => 5) [0] [1] 0 2).1 (by decide)
  · exact (OpMaxChannelIndicator_execute_channel_guard 2 (fun _ => 5) [0] [1] 0 1).2 (by decide)

theorem argmaxIdx_replicate_zero (n : Nat) : argmaxIdx (List.replicate n (0 : Int)) = 0 := by
  induction n with
  | zero => rfl
  | succ m ih =>
    cases m with
    | zero => rfl
    | succ k =>
      have hrep : List.replicate (k + 1 + 1) (0 : Int) = 0 :: List.replicate (k + 1) (0 : Int) :=
        rfl
      have hrep2 : List.replicate (k + 1) (0 : Int) = 0 :: List.replicate k (0 : Int) := rfl
      rw [hrep, hrep2]
      rw [hrep2] at ih
      simp only [argmaxIdx, ih]
      have hidx : idx (0 :: List.replicate k (0 : Int)) 0 = 0 := rfl
      simp [hidx]

/-- The value of the argmax indicator at channel 0 on identically-zero data:
ties at zero resolve to channel 0, so the rule alone would output 1. -/
theorem maxChanIndicator_zero_channel0 (nch : Nat) (h : 0 < nch) (u : List Int) :
    maxChanIndicator nch (fun _ => 0) 0 u = 1 := by
  unfold maxChanIndicator
  have hmap : (List.range nch).map (fun ch : Nat => (fun _ : List Int => (0 : Int)) (u ++ [(ch : Int)]))
      = List.replicate nch (0 : Int) := by
    simp
  rw [hmap, argmaxIdx_replicate_zero]
  simp

/-- Claim C9: when the fetched input block is entirely zero,
`OpMaxChannelIndicatorOperator.execute` fills the result with 0 for the
requested channel — including channel 0, which the argmax rule alone would
mark as 1 at every pixel (shown by the second conjunct). -/
theorem OpMaxChannelIndicator_execute_zero_block (nch : Nat) (input : List Int → Int)
    (sstart sstop : List Int) (c0 c1 : Int) (h1 : c1 - c0 = 1)
    (hz : ∀ u ∈ boxPoints sstart sstop, ∀ ch ∈ List.range nch, input (u ++ [(ch : Int)]) = 0)
    (hn : 0 < nch) :
    OpMaxChannelIndicator_execute nch input sstart sstop c0 c1 = Except.ok (fun _ => 0)
    ∧ (∀ u, maxChanIndicator nch (fun _ => 0) 0 u = 1) := by
  constructor
  · unfold OpMaxChannelIndicator_execute
    rw [if_neg (by simp [h1])]
    have hall : OpMaxChannelIndicator_allZero nch input sstart sstop = true := by
      unfold OpMaxChannelIndicator_allZero
      rw [List.all_eq_true]
      intro u hu
      rw [List.all_eq_true]
      intro ch hch
      simpa using hz u hu ch hch
    simp [hall]
  · exact fun u => maxChanIndicator_zero_channel0 nch hn u

/-- Witness for C9: a concrete all-zero block yields the all-zero result,
and on zero data the raw argmax rule would mark channel 0 with 1. -/
theorem OpMaxChannelIndicator_execute_zero_block_witness :
    OpMaxChannelIndicator_execute 2 (fun _ => 0) [0] [2] 0 1 = Except.ok (fun _ => 0)
    ∧ maxChanIndicator 2 (fun _ => 0) 0 [0] = 1 := by
  have h := OpMaxChannelIndicator_execute_zero_block 2 (fun _ => 0) [0] [2] 0 1 (by decide)
    (fun u _ ch _ => rfl) (by decide)
  exact ⟨h.1, h.2 [0]⟩

theorem mergerCollectDranges_all_some {α : Type} (drs : List (Option α)) (acc : List α)
    (h : ∀ d ∈ drs, d ≠ none) :
    mergerCollectDranges drs acc = acc ++ drs.reduceOption := by
  induction drs generalizing acc with
  | nil => simp [mergerCollectDranges]
  | cons d rest ih =>
    cases d with
    | none => exact absurd rfl (h none (by simp))
    | some v =>
      simp only [mergerCollectDranges]
      rw [ih (acc ++ [v]) (fun x hx => h x (by simp [hx]))]
      simp [List.reduceOption]

theorem mergerCollectDranges_has_none {α : Type} (drs : List (Option α)) (acc : List α)
    (h : ∃ d ∈ drs, d = none) :
    mergerCollectDranges drs acc = [] := by
  induction drs generalizing acc with
  | nil => simp at h
  | cons d rest ih =>
    cases d with
    | none => rfl
    | some v =>
      simp only [mergerCollectDranges]
      rcases h with ⟨x, hx, hnone⟩
      rcases List.mem_cons.1 hx with h1 | h1
      · exact absurd (h1 ▸ hnone) (by simp)
      · exact ih (acc ++ [v]) ⟨x, h1, hnone⟩

/-- Claim C7: for a merger with at least one input, the output drange is set
if and only if every input supplies a drange, in which case it is the merging
function applied to the collected input dranges; if any input lacks a drange,
no output drange is emitted. -/
theorem OpMultiArrayMerger_outputDrange_iff {α : Type} (mergeFun : List α → α)
    (dranges : List (Option α)) (hne : dranges ≠ []) :
    ((∀ d ∈ dranges, d ≠ none) →
      OpMultiArrayMerger_outputDrange mergeFun dranges = some (mergeFun dranges.reduceOption))
    ∧ ((∃ d ∈ dranges, d = none) →
      OpMultiArrayMerger_outputDrange mergeFun dranges = none) := by
  constructor
  · intro h
    unfold OpMultiArrayMerger_outputDrange
    rw [mergerCollectDranges_all_some dranges [] h]
    have hlen : 0 < dranges.reduceOption.length := by
      cases dranges with
      | nil => exact absurd rfl hne
      | cons d rest =>
        cases d with
        | none => exact absurd rfl (h none (by simp))
        | some v => simp [List.reduceOption]
    simp [hlen]
  · intro h
    unfold OpMultiArrayMerger_outputDrange
    rw [mergerCollectDranges_has_none dranges [] h]
    rfl

/-- Witness for C7: with every input supplying a drange the merge function is
applied to all of them; with one missing no drange is emitted. -/
theorem OpMultiArrayMerger_outputDrange_iff_witness :
    OpMultiArrayMerger_outputDrange (fun l => l.foldl (· + ·) (0 : Int)) [some 1, some 2]
      = some 3
    ∧ OpMultiArrayMerger_outputDrange (fun l => l.foldl (· + ·) (0 : Int)) [some 1, none]
      = none := by
  constructor
  · have h := (OpMultiArrayMerger_outputDrange_iff (fun l => l.foldl (· + ·) (0 : Int))
      [some 1, some 2] (by simp)).1 (by simp)
    simpa [List.reduceOption] using h
  · exact (OpMultiArrayMerger_outputDrange_iff (fun l => l.foldl (· + ·) (0 : Int))
      [some 1, none] (by simp)).2 ⟨none, by simp, rfl⟩

theorem intervalsFrom_length {α : Type} (c : Int) (srcs : List (StackSource α)) :
    (intervalsFrom c srcs).length = srcs.length := by
  induction srcs generalizing c with
  | nil => rfl
  | cons s rest ih => simp [intervalsFrom, ih]

theorem stackOne_fst {α : Type} (L : Nat) (start stop : List Int) (s : StackSource α)
    (c w : Int) (res : List Int → α) :
    (stackOne L start stop s (c, w, res)).1 = c + contribution s := by
  by_cases h : s.hasAxis <;>
    simp only [stackOne, contribution, h, if_true, if_false, Bool.false_eq_true] <;>
    split_ifs <;> rfl

theorem stackOne_written {α : Type} (L : Nat) (start stop : List Int) (s : StackSource α)
    (c : Int) (res : List Int → α)
    (hA : 0 ≤ idx start L) (hAB : idx start L ≤ idx stop L)
    (hpos : 0 ≤ contribution s) :
    (stackOne L start stop s (c, max 0 (min c (idx stop L) - idx start L), res)).2.1
      = max 0 (min (c + contribution s) (idx stop L) - idx start L) := by
  by_cases h : s.hasAxis
  · have hc : contribution s = s.extent := by simp [contribution, h]
    rw [hc] at hpos ⊢
    simp only [stackOne]
    rw [if_pos h]
    split_ifs <;> dsimp only <;> omega
  · have hc : contribution s = 1 := by simp [contribution, h]
    rw [hc] at hpos ⊢
    simp only [stackOne]
    rw [if_neg h]
    split_ifs <;> dsimp only <;> omega

theorem stackOne_preserve_lt {α : Type} (L : Nat) (start stop : List Int)
    (s : StackSource α) (c w : Int) (res : List Int → α) (y : List Int)
    (hy : idx y L < w) :
    (stackOne L start stop s (c, w, res)).2.2 y = res y := by
  by_cases h : s.hasAxis
  · simp only [stackOne]
    rw [if_pos h]
    split_ifs <;> first
      | rfl
      | (dsimp only; rw [if_neg (by omega)])
  · simp only [stackOne]
    rw [if_neg h]
    split_ifs <;> first
      | rfl
      | (dsimp only; rw [if_neg (by omega)])

/-- When the position `idx start L + idx y L` addressed by buffer cell `y`
lies in this source's interval `[c, c + contribution s)` (clipped to the
requested ROI), the source-loop iteration writes exactly the guarded
branch's fetch value into `y`. -/
theorem stackOne_write_val {α : Type} (L : Nat) (start stop : List Int)
    (s : StackSource α) (c : Int) (res : List Int → α) (y : List Int)
    (hA : 0 ≤ idx start L) (hAB : idx start L ≤ idx stop L)
    (hpos : 0 ≤ contribution s) (hy0 : 0 ≤ idx y L)
    (hp1 : c ≤ idx start L + idx y L)
    (hp2 : idx start L + idx y L < c + contribution s)
    (hp3 : idx start L + idx y L < idx stop L) :
    (stackOne L start stop s (c, max 0 (min c (idx stop L) - idx start L), res)).2.2 y
      = stackFetchVal L start stop c s y := by
  by_cases h : s.hasAxis
  · have hc : contribution s = s.extent := by simp [contribution, h]
    rw [hc] at hpos hp2
    simp only [stackOne]
    rw [if_pos h]
    rw [if_pos (by refine ⟨?_, ?_, ?_⟩ <;> omega)]
    dsimp only
    rw [if_pos ⟨by omega, by split_ifs <;> omega⟩]
    unfold stackFetchVal
    rw [if_pos h]
    have hb : (if c < idx start L then idx start L - c else 0)
        = max (idx start L - c) 0 := by
      split_ifs <;> omega
    rw [hb]
  · have hc : contribution s = 1 := by simp [contribution, h]
    rw [hc] at hp2
    simp only [stackOne]
    rw [if_neg h]
    rw [if_pos ⟨by omega, by omega⟩]
    dsimp only
    rw [if_pos (by omega)]
    unfold stackFetchVal
    rw [if_neg h]

/-- Buffer cells strictly below the current `written` position along the
stacking axis are never touched by the remaining source-loop iterations. -/
theorem stackFold_preserve {α : Type} (L : Nat) (start stop : List Int)
    (srcs : List (StackSource α)) (c : Int) (res : List Int → α) (y : List Int)
    (hA : 0 ≤ idx start L) (hAB : idx start L ≤ idx stop L)
    (hpos : ∀ s ∈ srcs, 0 ≤ contribution s)
    (hy : idx y L < max 0 (min c (idx stop L) - idx start L)) :
    (srcs.foldl (fun st s => stackOne L start stop s st)
        (c, max 0 (min c (idx stop L) - idx start L), res)).2.2 y = res y := by
  induction srcs generalizing c res with
  | nil => rfl
  | cons s rest ih =>
    rw [List.foldl_cons]
    have hcs : 0 ≤ contribution s := hpos s (by simp)
    have h1 := stackOne_fst L start stop s c (max 0 (min c (idx stop L) - idx start L)) res
    have h2 := stackOne_written L start stop s c res hA hAB hcs
    have heq : stackOne L start stop s (c, max 0 (min c (idx stop L) - idx start L), res)
        = (c + contribution s,
           max 0 (min (c + contribution s) (idx stop L) - idx start L),
           (stackOne L start stop s
             (c, max 0 (min c (idx stop L) - idx start L), res)).2.2) := by
      rw [← h2, ← h1]
    rw [heq]
    rw [ih (c + contribution s) _ (fun t ht => hpos t (by simp [ht])) (by omega)]
    exact stackOne_preserve_lt L start stop s c _ res y (by omega)

/-- The value of the stacker's source loop at a buffer cell addressing a
position inside the `k`-th source's recorded interval `(o, oEnd)` is the
fetch that source's guarded branch issues. -/
theorem stackFold_main {α : Type} (L : Nat) (start stop : List Int)
    (srcs : List (StackSource α)) (k : Nat) (c : Int) (res : List Int → α) (y : List Int)
    (o oEnd : Int)
    (hA : 0 ≤ idx start L) (hAB : idx start L ≤ idx stop L)
    (hpos : ∀ s ∈ srcs, 0 ≤ contribution s)
    (hk : k < srcs.length) (hk2 : k < (intervalsFrom c srcs).length)
    (hio : (intervalsFrom c srcs)[k] = (o, oEnd))
    (hy0 : 0 ≤ idx y L)
    (hp1 : o ≤ idx start L + idx y L)
    (hp2 : idx start L + idx y L < oEnd)
    (hp3 : idx start L + idx y L < idx stop L) :
    (srcs.foldl (fun st s => stackOne L start stop s st)
        (c, max 0 (min c (idx stop L) - idx start L), res)).2.2 y
      = stackFetchVal L start stop o srcs[k] y := by
  induction srcs generalizing k c res with
  | nil => simp at hk
  | cons s rest ih =>
    have hcs : 0 ≤ contribution s := hpos s (by simp)
    have h1 := stackOne_fst L start stop s c (max 0 (min c (idx stop L) - idx start L)) res
    have h2 := stackOne_written L start stop s c res hA hAB hcs
    have heq : stackOne L start stop s (c, max 0 (min c (idx stop L) - idx start L), res)
        = (c + contribution s,
           max 0 (min (c + contribution s) (idx stop L) - idx start L),
           (stackOne L start stop s
             (c, max 0 (min c (idx stop L) - idx start L), res)).2.2) := by
      rw [← h2, ← h1]
    cases k with
    | zero =>
      have hio' : c = o ∧ c + contribution s = oEnd := by
        simpa [intervalsFrom, Prod.ext_iff] using hio
      obtain ⟨ho, hoE⟩ := hio'
      rw [List.foldl_cons, heq]
      rw [stackFold_preserve L start stop rest (c + contribution s) _ y hA hAB
        (fun t ht => hpos t (by simp [ht])) (by omega)]
      have hval := stackOne_write_val L start stop s c res y hA hAB hcs hy0
        (by omega) (by omega) hp3
      simpa [← ho] using hval
    | succ j =>
      have hk' : j < rest.length := by simpa using hk
      have hk2' : j < (intervalsFrom (c + contribution s) rest).length := by
        rw [intervalsFrom_length]
        exact hk'
      have hio' : (intervalsFrom (c + contribution s) rest)[j] = (o, oEnd) := by
        simpa [intervalsFrom] using hio
      rw [List.foldl_cons, heq]
      rw [ih j (c + contribution s) _ (fun t ht => hpos t (by simp [ht])) hk' hk2' hio']
      simp

/-- Claim C1: for every ROI fully inside the stacker's output, `execute`
fills the result buffer with the concatenation along the stacking axis of the
sources' slabs in connection order: at every buffer cell `y` whose axis
position `start[L] + y[L]` lies in the `k`-th source's recorded interval
`[o, oEnd)` of `setRightShape` (offsets are cumulative sums of per-source
contributions, extent if the source has the axis else 1) and inside the ROI,
the result equals that source's data at the translated local coordinate
(axis component shifted by `-o` if the source has the axis, axis dropped if
it was synthesized). -/
theorem OpMultiArrayStacker_execute_concat {α : Type} (L : Nat)
    (sources : List (StackSource α)) (start stop y : List Int) (init : List Int → α)
    (k : Nat) (dat : List Int → α) (o oEnd : Int)
    (hlen : y.length = start.length) (hL : L < start.length)
    (hpos : ∀ s ∈ sources, 0 ≤ contribution s)
    (hA : 0 ≤ idx start L) (hAB : idx start L ≤ idx stop L)
    (hinside : idx stop L ≤ totalContribution sources)
    (hk : k < sources.length) (hk2 : k < (setRightShape sources).length)
    (hio : (setRightShape sources)[k] = (o, oEnd))
    (harr : ArrayLike sources[k] dat)
    (hy0 : 0 ≤ idx y L)
    (hp1 : o ≤ idx start L + idx y L)
    (hp2 : idx start L + idx y L < oEnd)
    (hp3 : idx start L + idx y L < idx stop L) :
    stackerExecute L sources start stop init y
      = if sources[k].hasAxis then
          dat (insertAt (popAt (zipAdd start y) L) L (idx start L + idx y L - o))
        else
          dat (popAt (zipAdd start y) L) := by
  have hk2' : k < (intervalsFrom 0 sources).length := hk2
  have hio' : (intervalsFrom 0 sources)[k] = (o, oEnd) := hio
  have h0 : ((0 : Int), (0 : Int), init)
      = ((0 : Int), max 0 (min 0 (idx stop L) - idx start L), init) := by
    have hmax : max 0 (min 0 (idx stop L) - idx start L) = 0 := by omega
    rw [hmax]
  unfold stackerExecute
  rw [h0]
  rw [stackFold_main L start stop sources k 0 init y o oEnd hA hAB hpos hk hk2' hio'
    hy0 hp1 hp2 hp3]
  unfold stackFetchVal
  by_cases hax : sources[k].hasAxis
  · rw [if_pos hax, if_pos hax]
    rw [harr]
    have hLp : L ≤ (popAt start L).length := by
      rw [length_popAt start L hL]
      omega
    have hLy : L ≤ (popAt y L).length := by
      rw [length_popAt y L (by omega)]
      omega
    rw [zipAdd_insertAt (popAt start L) (popAt y L) L _ _ hLp hLy]
    rw [zipAdd_popAt start y L hlen.symm]
    have harith : max (idx start L - o) 0
        + (idx y L - max 0 (min o (idx stop L) - idx start L))
        = idx start L + idx y L - o := by omega
    rw [harith]
  · rw [if_neg hax, if_neg hax]
    rw [harr]
    rw [zipAdd_popAt start y L hlen.symm]

/-- Witness for C1: a single 1-D source of extent 2 behaving as the identity
array; the cell at axis position 1 of the ROI `[0, 2)` receives the source's
value at coordinate 1. -/
theorem OpMultiArrayStacker_execute_concat_witness :
    stackerExecute 0 [StackSource.mk true 2 (fun rs u => idx (zipAdd rs u) 0)]
      [0] [2] (fun _ => (0 : Int)) [1] = 1 := by
  have h := OpMultiArrayStacker_execute_concat 0
    [StackSource.mk true 2 (fun rs u => idx (zipAdd rs u) 0)]
    [0] [2] [1] (fun _ => (0 : Int)) 0 (fun z => idx z 0) 0 2
    rfl (by decide)
    (by
      intro s hs
      simp only [List.mem_singleton] at hs
      subst hs
      decide)
    (by decide) (by decide) (by decide) (by decide) (by decide)
    (by decide)
    (by intro rs u; rfl)
    (by decide) (by decide) (by decide) (by decide)
  rw [h]
  decide

theorem intervalsFrom_unit {α : Type} (srcs : List (StackSource α)) (c : Int) (k : Nat)
    (hone : ∀ s ∈ srcs, contribution s = 1)
    (hk2 : k < (intervalsFrom c srcs).length) :
    (intervalsFrom c srcs)[k] = (c + k, c + k + 1) := by
  induction srcs generalizing c k with
  | nil => simp [intervalsFrom] at hk2
  | cons s rest ih =>
    have hs : contribution s = 1 := hone s (by simp)
    cases k with
    | zero => simp [intervalsFrom, hs]
    | succ j =>
      have hk2' : j < (intervalsFrom (c + contribution s) rest).length := by
        have := hk2
        simp only [intervalsFrom, List.length_cons] at this
        omega
      have hstep : (intervalsFrom c (s :: rest))[j + 1]
          = (intervalsFrom (c + contribution s) rest)[j] := by
        show ((c, c + contribution s) :: intervalsFrom (c + contribution s) rest)[j + 1]
          = (intervalsFrom (c + contribution s) rest)[j]
        simp
      rw [hstep]
      rw [ih (c + contribution s) j (fun t ht => hone t (by simp [ht])) hk2']
      rw [hs]
      simp only [Prod.mk.injEq]
      constructor <;> push_cast <;> ring

/-- Claim C2: slicing an array along axis `L` into the default indices
`0 .. n-1` with `OpMultiArraySlicer2` and stacking the resulting sub-outputs
back along the same axis with `OpMultiArrayStacker` (in the same order)
reproduces the original array on every ROI of the full shape: each buffer
cell `y` of `execute([start, stop))` receives `input (start + y)`. -/
theorem OpMultiArraySlicer2_stacker_roundtrip {α : Type} (L : Nat) (n : Nat)
    (input : List Int → α) (start stop y : List Int) (init : List Int → α)
    (hlen : y.length = start.length) (hL : L < start.length)
    (hA : 0 ≤ idx start L) (hAB : idx start L ≤ idx stop L)
    (hBn : idx stop L ≤ (n : Int))
    (hy0 : 0 ≤ idx y L) (hyB : idx start L + idx y L < idx stop L) :
    stackerExecute L (slicerStackSources L n input) start stop init y
      = input (zipAdd start y) := by
  have hp0 : 0 ≤ idx start L + idx y L := by omega
  have hpk : ((idx start L + idx y L).toNat : Int) = idx start L + idx y L :=
    Int.toNat_of_nonneg hp0
  set k := (idx start L + idx y L).toNat with hkdef
  have hkn : k < n := by omega
  have hlenS : (slicerStackSources L n input).length = n := by
    unfold slicerStackSources
    rw [List.length_map, List.length_range]
  have hk : k < (slicerStackSources L n input).length := by omega
  have hk2 : k < (intervalsFrom 0 (slicerStackSources L n input)).length := by
    rw [intervalsFrom_length]
    omega
  have hone : ∀ s ∈ slicerStackSources L n input, contribution s = 1 := by
    intro s hs
    simp only [slicerStackSources, List.mem_map, List.mem_range] at hs
    obtain ⟨j, _, rfl⟩ := hs
    rfl
  have hio : (intervalsFrom 0 (slicerStackSources L n input))[k]
      = ((k : Int), (k : Int) + 1) := by
    have h := intervalsFrom_unit (slicerStackSources L n input) 0 k hone hk2
    simpa using h
  have hpos : ∀ s ∈ slicerStackSources L n input, 0 ≤ contribution s := by
    intro s hs
    rw [hone s hs]
    omega
  have h0 : ((0 : Int), (0 : Int), init)
      = ((0 : Int), max 0 (min 0 (idx stop L) - idx start L), init) := by
    have hmax : max 0 (min 0 (idx stop L) - idx start L) = 0 := by omega
    rw [hmax]
  unfold stackerExecute
  rw [h0]
  rw [stackFold_main L start stop (slicerStackSources L n input) k 0 init y
    (k : Int) ((k : Int) + 1) hA hAB hpos hk hk2 hio hy0 (by omega) (by omega) hyB]
  have hget : (slicerStackSources L n input)[k]
      = StackSource.mk true 1 (OpMultiArraySlicer2_execute L (k : Int) input) := by
    unfold slicerStackSources
    rw [List.getElem_map, List.getElem_range]
  rw [hget]
  unfold stackFetchVal
  rw [if_pos rfl]
  dsimp only
  unfold OpMultiArraySlicer2_execute slicerNewKeyStart
  have hLp : L ≤ (popAt start L).length := by
    rw [length_popAt start L hL]
    omega
  have hLy : L ≤ (popAt y L).length := by
    rw [length_popAt y L (by omega)]
    omega
  rw [popAt_insertAt (popAt start L) L _ hLp]
  rw [zipAdd_insertAt (popAt start L) (popAt y L) L _ _ hLp hLy]
  rw [zipAdd_popAt start y L hlen.symm]
  have harith : (k : Int) + (idx y L - max 0 (min (k : Int) (idx stop L) - idx start L))
      = idx start L + idx y L := by omega
  rw [harith]
  have hidx : idx start L + idx y L = idx (zipAdd start y) L :=
    (idx_zipAdd start y L hL (by omega)).symm
  rw [hidx]
  exact congrArg input (insertAt_popAt_idx (zipAdd start y) L
    (by rw [length_zipAdd]; omega))

/-- Witness for C2: slicing the 1-D array `z ↦ 3 z + 7` of extent 2 along
axis 0 and stacking the two slices back reproduces the array at position 1. -/
theorem OpMultiArraySlicer2_stacker_roundtrip_witness :
    stackerExecute 0 (slicerStackSources 0 2 (fun z => idx z 0 * 3 + 7)) [0] [2]
      (fun _ => (0 : Int)) [1] = 10 := by
  have h := OpMultiArraySlicer2_stacker_roundtrip 0 2 (fun z => idx z 0 * 3 + 7)
    [0] [2] [1] (fun _ => (0 : Int)) rfl (by decide) (by decide) (by decide)
    (by decide) (by decide) (by decide)
  rw [h]
  decide

theorem OpMultiChannelSelector_writeLoop_below {α : Type} (L : Nat)
    (input : List Int → α) (rstart : List Int) (chs : List Int) (i0 : Nat)
    (res : List Int → α) (u : List Int) (hu : idx u L < (i0 : Int)) :
    OpMultiChannelSelector_writeLoop L input rstart i0 chs res u = res u := by
  induction chs generalizing i0 res with
  | nil => rfl
  | cons ch rest ih =>
    rw [OpMultiChannelSelector_writeLoop]
    rw [ih (i0 + 1) _ (by push_cast; omega)]
    rw [if_neg (by omega)]

theorem OpMultiChannelSelector_writeLoop_val {α : Type} (L : Nat)
    (input : List Int → α) (rstart : List Int) (chs : List Int) (i0 : Nat)
    (res : List Int → α) (u : List Int) (i : Nat) (hi : i < chs.length)
    (hu : idx u L = ((i0 + i : Nat) : Int)) :
    OpMultiChannelSelector_writeLoop L input rstart i0 chs res u
      = input (zipAdd (rstart.set L (idx chs i)) (u.set L (idx u L - ((i0 + i : Nat) : Int)))) := by
  induction chs generalizing i0 res i with
  | nil => simp at hi
  | cons ch rest ih =>
    cases i with
    | zero =>
      rw [OpMultiChannelSelector_writeLoop]
      rw [OpMultiChannelSelector_writeLoop_below L input rstart rest (i0 + 1) _ u
        (by push_cast at hu ⊢; omega)]
      rw [if_pos (by push_cast at hu ⊢; omega)]
      have h1 : (i0 : Int) = ((i0 + 0 : Nat) : Int) := by push_cast; ring
      rw [h1]
      rfl
    | succ j =>
      rw [OpMultiChannelSelector_writeLoop]
      rw [ih (i0 + 1) _ j (by simpa using hi) (by push_cast at hu ⊢; omega)]
      have h1 : ((i0 + 1 + j : Nat) : Int) = ((i0 + (j + 1) : Nat) : Int) := by
        push_cast
        ring
      rw [h1]
      rfl

/-- Claim C8: for every `OpMultiChannelSelector` configuration and every
buffer cell `u` in output channel `i`, `execute` writes the input's value at
the corresponding coordinate with the channel component replaced by
`SelectedChannels[i]` — so with `SelectedChannels = (2, 0, 0)` output channel
0 equals source channel 2 and output channels 1 and 2 both equal source
channel 0 (witness below). -/
theorem zipAdd_set_left (a b : List Int) (i : Nat) (v : Int)
    (ha : i < a.length) (hb : i < b.length) :
    zipAdd (a.set i v) b = (zipAdd a b).set i (v + idx b i) := by
  induction a generalizing b i with
  | nil => simp at ha
  | cons x t ih =>
    cases b with
    | nil => simp at hb
    | cons y s =>
      cases i with
      | zero => rfl
      | succ j =>
        simp only [List.set, zipAdd, List.zipWith_cons_cons, List.cons.injEq, true_and]
        exact ih s j (by simpa using ha) (by simpa using hb)

theorem OpMultiChannelSelector_execute_channels {α : Type} (L : Nat) (sel : List Int)
    (input : List Int → α) (rstart : List Int) (init : List Int → α) (u : List Int)
    (i : Nat)
    (hL : rstart.length = L + 1) (hu : u.length = rstart.length)
    (hi : i < sel.length) (huL : idx u L = (i : Int)) :
    OpMultiChannelSelector_execute L sel input rstart init u
      = input ((zipAdd rstart u).set L (idx sel i)) := by
  have hLr : L < rstart.length := by omega
  have hLu : L < u.length := by omega
  unfold OpMultiChannelSelector_execute
  by_cases hone : sel.length = 1
  · rw [if_pos hone]
    have hi0 : i = 0 := by omega
    subst hi0
    have hu0 : idx u L = 0 := by simpa using huL
    rw [zipAdd_set_left rstart u L (idx sel 0) hLr hLu]
    rw [hu0, add_zero]
  · rw [if_neg hone]
    have hval := OpMultiChannelSelector_writeLoop_val L input rstart sel 0 init u i hi
      (by push_cast; omega)
    rw [hval]
    have hz : idx u L - ((0 + i : Nat) : Int) = 0 := by push_cast; omega
    rw [hz]
    rw [zipAdd_set rstart u L (idx sel i) 0 hLr hLu]
    rw [add_zero]

/-- Witness for C8: the spec's scenario `SelectedChannels = (2, 0, 0)` on a
4-channel source `z ↦ 10·z₀ + z₁`: output channel 0 equals source channel 2,
output channels 1 and 2 both equal source channel 0. -/
theorem OpMultiChannelSelector_execute_channels_witness :
    OpMultiChannelSelector_execute 1 [2, 0, 0] (fun z => idx z 0 * 10 + idx z 1)
      [0, 0] (fun _ => (0 : Int)) [3, 0] = 32
    ∧ OpMultiChannelSelector_execute 1 [2, 0, 0] (fun z => idx z 0 * 10 + idx z 1)
      [0, 0] (fun _ => (0 : Int)) [3, 1] = 30
    ∧ OpMultiChannelSelector_execute 1 [2, 0, 0] (fun z => idx z 0 * 10 + idx z 1)
      [0, 0] (fun _ => (0 : Int)) [3, 2] = 30 := by
  refine ⟨?_, ?_, ?_⟩
  · have h := OpMultiChannelSelector_execute_channels 1 [2, 0, 0]
      (fun z => idx z 0 * 10 + idx z 1) [0, 0] (fun _ => (0 : Int)) [3, 0] 0
      rfl rfl (by decide) (by decide)
    rw [h]
    decide
  · have h := OpMultiChannelSelector_execute_channels 1 [2, 0, 0]
      (fun z => idx z 0 * 10 + idx z 1) [0, 0] (fun _ => (0 : Int)) [3, 1] 1
      rfl rfl (by decide) (by decide)
    rw [h]
    decide
  · have h := OpMultiChannelSelector_execute_channels 1 [2, 0, 0]
      (fun z => idx z 0 * 10 + idx z 1) [0, 0] (fun _ => (0 : Int)) [3, 2] 2
      rfl rfl (by decide) (by decide)
    rw [h]
    decide

/-- Counterexample to C3 as stated: a ready stacker of two extent-1 sources
(recorded intervals `[(0,1), (1,2)]`, output shape `[2]`) receiving a dirty
notification on the whole of source 0 reports the entire output `[0, 2)`
dirty, a proper superset of - and hence not equal to - the claimed shifted
sub-box `[0, 1)`. -/
theorem OpMultiArrayStacker_propagateDirty_not_exact :
    setRightShape
        [StackSource.mk true 1 (fun _ _ => (0 : Int)),
         StackSource.mk true 1 (fun _ _ => (0 : Int))] = [(0, 1), (1, 2)]
    ∧ OpMultiArrayStacker_propagateDirty true [2] StackerDirtySlot.imagesSlot [0] [1]
        = some ([0], [2])
    ∧ claimedStackerDirty 0 0 [0] [1] = ([0], [1])
    ∧ ¬(some (([0], [2]) : List Int × List Int)
        = some (([0], [1]) : List Int × List Int)) := by
  refine ⟨by decide, by decide, by decide, by decide⟩

theorem idx_map_zero (xs : List Int) (j : Nat) (h : j < xs.length) :
    idx (xs.map (fun _ => (0 : Int))) j = 0 := by
  induction xs generalizing j with
  | nil => simp at h
  | cons x t ih =>
    cases j with
    | zero => rfl
    | succ m => exact ih m (by simpa using h)

/-- Claim C3 (amended): on any source dirty notification, a ready stacker
reports the *entire* output `[0, shape)` dirty — a region that contains the
claimed shifted sub-box whenever that sub-box lies inside the output (so the
report is never a proper subset of it), but is in general a proper superset
(see the counterexample). -/
theorem OpMultiArrayStacker_propagateDirty_whole (ready : Bool)
    (outputShape : List Int) (slot : StackerDirtySlot) (dstart dstop : List Int)
    (L : Nat) (o : Int) (h : ready = true)
    (hbox : ∀ j, j < outputShape.length →
      0 ≤ idx (claimedStackerDirty L o dstart dstop).1 j
      ∧ idx (claimedStackerDirty L o dstart dstop).2 j ≤ idx outputShape j) :
    OpMultiArrayStacker_propagateDirty ready outputShape slot dstart dstop
      = some (outputShape.map (fun _ => 0), outputShape)
    ∧ (∀ j, j < outputShape.length →
      idx (outputShape.map (fun _ => 0)) j ≤ idx (claimedStackerDirty L o dstart dstop).1 j
      ∧ idx (claimedStackerDirty L o dstart dstop).2 j ≤ idx outputShape j) := by
  constructor
  · subst h
    cases slot <;> rfl
  · intro j hj
    have hb := hbox j hj
    rw [idx_map_zero outputShape j hj]
    exact hb

/-- Witness for the amended C3: the concrete two-source stacker reports the
whole `[0, 2)` output dirty. -/
theorem OpMultiArrayStacker_propagateDirty_whole_witness :
    OpMultiArrayStacker_propagateDirty true [2] StackerDirtySlot.imagesSlot [0] [1]
      = some ([0], [2]) := by
  have h := OpMultiArrayStacker_propagateDirty_whole true [2]
    StackerDirtySlot.imagesSlot [0] [1] 0 0 rfl
    (by
      intro j hj
      have hj0 : j = 0 := by simpa using hj
      subst hj0
      exact ⟨by decide, by decide⟩)
  exact h.1

/-- Claim C4 is violated by the code (code bug): with
`SliceIndexes = [2, 4, 6]`, a dirty region covering axis position 4 marks
*no* sub-output (the guard `4 < len(Slices) = 3` fails), although position 4
is exposed as `Slices[1]`; and a dirty region covering position 2 marks
`Slices[2]` — the sub-output recording index 6 — instead of `Slices[0]`.
The code indexes `self.Slices` by the raw axis position instead of by the
position of that index inside `SliceIndexes`, contradicting the
`SliceIndexes` documentation at lines 74-77 and the execute path. -/
theorem OpMultiArraySlicer2_propagateDirty_bug :
    OpMultiArraySlicer2_propagateDirtyInput 0 [2, 4, 6] [4] [5] = []
    ∧ OpMultiArraySlicer2_propagateDirtyInput 0 [2, 4, 6] [2] [3]
        = [(2, [0], [1])] := by
  constructor <;> decide
